import Mathlib

/-!
Shallow embedding of `src/app.py` ("Real Intent → Rechat CSV converter").

The program reads a CSV into a pandas DataFrame, strips whitespace from the
column headers, validates that the required source columns are present,
derives one output row per source row (direct copies, address concatenation
and normalization, two synthesized "Tag" cells and a synthesized "Notes"
cell), and finally re-selects the output columns in the declared order.

Modelling conventions (pandas semantics made explicit):
  * a cell is `Option String`: `none` models a missing value (pandas `NaN`),
    `some s` models the string rendering of a present value.  A numeric cell
    such as `62704.0` is modelled as `some "62704.0"` -- the string that
    `astype(str)` produces for it;
  * `astype(str)` renders `NaN` as the string `"nan"` (pandas behaviour),
    while `fillna('')` replaces `NaN` by `""` and leaves strings alone;
  * Python's `str.strip()` / pandas `.str.strip()` trim whitespace on both
    ends, and the regex class `\s` is modelled by `Char.isWhitespace`;
  * `pandas.read_csv` mangles duplicate column names (`a`, `a.1`, ...), so
    the cleaned header of an uploaded table has pairwise distinct names for
    all columns the program looks up; lookups are modelled as first match;
  * `st.error` + `st.stop()` on missing required columns is modelled by an
    `Except` error value carrying the list of missing names.
-/

/-- Cell of a source table: `none` is a missing value (pandas `NaN`),
`some s` is the string rendering of a present value. -/
abbrev Cell := Option String

/-- Python `str(x)` / pandas `astype(str)` on a possibly-missing cell: a
missing value (`NaN`) renders as the literal string `"nan"`. -/
def pyAstypeStr : Cell → String
  | none => "nan"
  | some s => s

/-- Pandas `fillna('')`: a missing value becomes the empty string, a present
value is kept. -/
def fillna : Cell → String
  | none => ""
  | some s => s

/-- Pandas `pd.notna`: true exactly on present values. -/
def notna : Cell → Bool
  | none => false
  | some _ => true

/-- Strip whitespace from both ends of a character list (Python `strip()`). -/
def stripEndsWs (l : List Char) : List Char :=
  ((l.dropWhile Char.isWhitespace).reverse.dropWhile Char.isWhitespace).reverse

/-- Python `str.strip()` / pandas `.str.strip()` on a string. -/
def pyStrip (s : String) : String :=
  ⟨stripEndsWs s.data⟩

/-- Python `str.lower()` (the program only compares ASCII literals). -/
def pyLower (s : String) : String :=
  ⟨s.data.map Char.toLower⟩

/-- Regex replacement `\.0$ → ''` (app.py lines 81 and 86): if the string
ends in `".0"`, drop those two characters, else keep the string. -/
def stripDot0Chars (l : List Char) : List Char :=
  match l.reverse with
  | '0' :: '.' :: rest => rest.reverse
  | _ => l

/-- String form of the `\.0$ → ''` replacement. -/
def stripDot0 (s : String) : String :=
  ⟨stripDot0Chars s.data⟩

/-- Rendering of a numeric-sourced cell, app.py line 81 / 86:
`.astype(str).replace(r'\.0$', '', regex=True).fillna('')`.  After
`astype(str)` the series holds only strings (missing values became the
string `"nan"`), so the trailing `fillna('')` never replaces anything;
this is made explicit by wrapping the string back into `some`. -/
def renderNumericStr (c : Cell) : String :=
  fillna (some (stripDot0 (pyAstypeStr c)))

/-! Address normalization, app.py lines 92-97.  The combined address string
is passed through six `str.replace` / `str.strip` stages in this order:
  1. `^,\s*` → `''`
  2. `\s*,\s*$` → `''`
  3. `.str.strip()`
  4. `\s{2,}` → `' '`
  5. `\s+,` → `','`
  6. `,\s*$` → `''`
Each regex stage is translated to a character-list function; stages 4 and 5
are written as right folds, which perform exactly the same replacement as
`re.sub` does (stage 4 rewrites every maximal run of two or more whitespace
characters to a single `' '`; stage 5 deletes every whitespace run that is
immediately followed by a comma). -/

/-- Stage 1, regex `^,\s*` → `''`: remove one leading comma together with
the whitespace following it. -/
def dropLeadingCommaWs : List Char → List Char
  | ',' :: rest => rest.dropWhile Char.isWhitespace
  | l => l

/-- Stage 2, regex `\s*,\s*$` → `''`: remove one trailing comma together
with the whitespace around it. -/
def stripTrailingCommaWs (l : List Char) : List Char :=
  match l.reverse.dropWhile Char.isWhitespace with
  | ',' :: rest => (rest.dropWhile Char.isWhitespace).reverse
  | _ => l

/-- Stage 4, regex `\s{2,}` → `' '`: every maximal run of two or more
whitespace characters becomes a single space; a lone whitespace character
is kept unchanged.  Processing the list from the right, a whitespace
character followed by an already-collapsed whitespace character merges with
it into `' '`. -/
def collapseWs : List Char → List Char
  | [] => []
  | c :: rest =>
    if Char.isWhitespace c then
      match collapseWs rest with
      | d :: tl => if Char.isWhitespace d then ' ' :: tl else c :: d :: tl
      | [] => [c]
    else c :: collapseWs rest

/-- Stage 5, regex `\s+,` → `','`: every whitespace run immediately before a
comma is deleted.  Processing the list from the right, a whitespace
character whose processed suffix starts with `','` is dropped. -/
def stripWsBeforeComma : List Char → List Char
  | [] => []
  | c :: rest =>
    if Char.isWhitespace c then
      match stripWsBeforeComma rest with
      | ',' :: tl => ',' :: tl
      | acc => c :: acc
    else c :: stripWsBeforeComma rest

/-- Stage 6, regex `,\s*$` → `''`: remove one trailing comma together with
the whitespace after it. -/
def stripTrailingComma (l : List Char) : List Char :=
  match l.reverse.dropWhile Char.isWhitespace with
  | ',' :: rest => rest.reverse
  | _ => l

/-- The full address-normalization pass of app.py lines 92-97, on character
lists: stages 1-6 in program order. -/
def normChars (l : List Char) : List Char :=
  stripTrailingComma (stripWsBeforeComma (collapseWs (stripEndsWs
    (stripTrailingCommaWs (dropLeadingCommaWs l)))))

/-- The address-normalization pass on strings. -/
def normalizeAddress (s : String) : String :=
  ⟨normChars s.data⟩

/-! Schema constants, app.py lines 6-28. -/

/-- Target Rechat schema, app.py lines 6-11 (note the duplicate `'Tag'`). -/
def RECHAT_COLUMNS : List String :=
  ["First Name", "Last Name", "Marketing Name", "Phone", "Email", "Address",
   "Birthday", "Home Anniversary", "Tag", "Tag", "Notes",
   "Spouse/Partner - First Name", "Spouse/Partner - Last Name",
   "Spouse/Partner - Email", "Spouse/Partner - Phone",
   "Spouse/Partner Birthday"]

/-- Required source columns, app.py lines 15-17. -/
def CORE_SOURCE_COLUMNS : List String :=
  ["first_name", "last_name", "email_1", "phone_1", "address", "city",
   "state", "zip_code"]

/-- Optional source columns, app.py lines 19-25. -/
def OPTIONAL_SOURCE_COLUMNS : List String :=
  ["home_owner_status", "insight", "gender", "age", "credit_range",
   "household_income", "marital_status", "household_net_worth", "occupation",
   "n_household_children", "email_2", "email_3", "phone_2", "phone_3",
   "phone_1_dnc", "phone_2_dnc", "phone_3_dnc",
   "Sellers", "Brokers And Agents", "Residential", "Pre-Movers", "Mortgages"]

/-- Source tag marker columns, app.py line 28. -/
def SOURCE_TAG_MARKER_COLS : List String :=
  ["Sellers", "Brokers And Agents", "Residential", "Pre-Movers", "Mortgages"]

/-! Tables. -/

/-- An uploaded source table: raw header names (possibly with surrounding
whitespace) and one positional cell list per data row. -/
structure SourceTable where
  header : List String
  rows : List (List Cell)
deriving DecidableEq

/-- The produced target table: header names and one string list per row. -/
structure TargetTable where
  header : List String
  rows : List (List String)
deriving DecidableEq

/-- Fatal conversion errors surfaced by `st.error` + `st.stop()`. -/
inductive ConvError where
  | missingColumns (cols : List String)
deriving DecidableEq

deriving instance DecidableEq for Except

/-- Header cleaning, app.py line 51: strip whitespace from every header. -/
def cleanedHeader (t : SourceTable) : List String :=
  t.header.map pyStrip

/-- Cell lookup `df_source[name]` / `row[name]` for one row, by cleaned
column name (first matching column). -/
def getCell (hdr : List String) (r : List Cell) (name : String) : Cell :=
  match (hdr.zip r).find? (fun p => p.1 == name) with
  | some p => p.2
  | none => none

/-- Missing required columns, app.py line 62. -/
def missingCoreCols (hdr : List String) : List String :=
  CORE_SOURCE_COLUMNS.filter (fun c => !hdr.contains c)

/-- Missing optional columns, app.py line 68 (reported in a warning). -/
def missingOptionalCols (hdr : List String) : List String :=
  OPTIONAL_SOURCE_COLUMNS.filter (fun c => !hdr.contains c)

/-! Field derivation, app.py lines 76-185, for one source row. -/

/-- `df_target['First Name']`, app.py line 77. -/
def firstNameVal (hdr : List String) (r : List Cell) : String :=
  fillna (getCell hdr r "first_name")

/-- `df_target['Last Name']`, app.py line 78. -/
def lastNameVal (hdr : List String) (r : List Cell) : String :=
  fillna (getCell hdr r "last_name")

/-- `df_target['Email']`, app.py line 79. -/
def emailVal (hdr : List String) (r : List Cell) : String :=
  fillna (getCell hdr r "email_1")

/-- `df_target['Phone']`, app.py line 81. -/
def phoneVal (hdr : List String) (r : List Cell) : String :=
  renderNumericStr (getCell hdr r "phone_1")

/-- `df_target['Marketing Name']`, app.py line 82. -/
def marketingVal (hdr : List String) (r : List Cell) : String :=
  pyStrip (fillna (getCell hdr r "first_name") ++ " "
    ++ fillna (getCell hdr r "last_name"))

/-- `zip_str`, app.py line 86. -/
def zipVal (hdr : List String) (r : List Cell) : String :=
  renderNumericStr (getCell hdr r "zip_code")

/-- Combined raw address, app.py lines 87-90. -/
def addressCombined (hdr : List String) (r : List Cell) : String :=
  fillna (getCell hdr r "address") ++ ", "
    ++ fillna (getCell hdr r "city") ++ " "
    ++ fillna (getCell hdr r "state") ++ " "
    ++ zipVal hdr r

/-- `df_target['Address']`, app.py lines 92-97. -/
def addressVal (hdr : List String) (r : List Cell) : String :=
  normalizeAddress (addressCombined hdr r)

/-- Indices of the `'Tag'` columns in the target schema, app.py line 101. -/
def tagIndices : List Nat :=
  (RECHAT_COLUMNS.enum.filter (fun p => p.2 == "Tag")).map (fun p => p.1)

/-- First `'Tag'` cell, app.py lines 104-109: `"Homeowner"` when the
`home_owner_status` column exists and its value, as a stripped lower-cased
string, is `"home owner"`; otherwise the empty string. -/
def tag1Val (hdr : List String) (r : List Cell) : String :=
  if "home_owner_status" ∈ hdr then
    if pyLower (pyStrip (pyAstypeStr (getCell hdr r "home_owner_status")))
        = "home owner" then "Homeowner" else ""
  else ""

/-- Marker columns present in the source, app.py line 112. -/
def availableMarkers (hdr : List String) : List String :=
  SOURCE_TAG_MARKER_COLS.filter (fun c => decide (c ∈ hdr))

/-- Marker columns of one row whose value is `"x"` (case-insensitively,
after stripping), app.py line 117. -/
def rowMarkers (hdr : List String) (r : List Cell) : List String :=
  (availableMarkers hdr).filter
    (fun c => pyLower (pyStrip (pyAstypeStr (getCell hdr r c))) == "x")

/-- Second `'Tag'` cell, app.py lines 113-120: the comma-joined matching
marker names, or the empty string when no marker column is present. -/
def tag2Val (hdr : List String) (r : List Cell) : String :=
  if availableMarkers hdr ≠ [] then String.intercalate ", " (rowMarkers hdr r)
  else ""

/-- Note fields with their prefixes, in declared order, app.py
lines 130-145. -/
def noteColsMap : List (String × String) :=
  [("insight", ""), ("occupation", "Occupation:"), ("gender", "Gender:"),
   ("age", "Age:"), ("marital_status", "Marital Status:"),
   ("n_household_children", "# Children:"), ("credit_range", "Credit:"),
   ("household_income", "Income:"), ("household_net_worth", "Net Worth:"),
   ("email_2", "Email 2:"), ("email_3", "Email 3:"),
   ("phone_2", "Phone 2:"), ("phone_3", "Phone 3:")]

/-- Note fields restricted to the columns present in the upload, app.py
line 147. -/
def availableNoteCols (hdr : List String) : List (String × String) :=
  noteColsMap.filter (fun p => decide (p.1 ∈ hdr))

/-- The `insight` note segment, app.py lines 151-153: added first, without
a label, when the column is present and the value is present and non-blank
after stripping. -/
def insightPart (hdr : List String) (r : List Cell) : List String :=
  if (availableNoteCols hdr).any (fun p => p.1 == "insight")
      ∧ notna (getCell hdr r "insight")
      ∧ pyStrip (pyAstypeStr (getCell hdr r "insight")) ≠ "" then
    [pyStrip (pyAstypeStr (getCell hdr r "insight"))]
  else []

/-- Note segment for one non-insight field, app.py lines 158-166: present
and non-blank values yield `"<label> <stripped value>"`, with a
`" (DNC: <value>)"` suffix for `phone_2` / `phone_3` when the matching DNC
column exists and its cell is present (`pd.notna`). -/
def noteEntry (hdr : List String) (r : List Cell) (col lab : String) :
    Option String :=
  if notna (getCell hdr r col) ∧ pyStrip (pyAstypeStr (getCell hdr r col)) ≠ "" then
    some ((lab ++ " " ++ pyStrip (pyAstypeStr (getCell hdr r col)))
      ++ (if col = "phone_2" ∧ "phone_2_dnc" ∈ hdr
            ∧ notna (getCell hdr r "phone_2_dnc") then
            " (DNC: " ++ pyAstypeStr (getCell hdr r "phone_2_dnc") ++ ")"
          else "")
      ++ (if col = "phone_3" ∧ "phone_3_dnc" ∈ hdr
            ∧ notna (getCell hdr r "phone_3_dnc") then
            " (DNC: " ++ pyAstypeStr (getCell hdr r "phone_3_dnc") ++ ")"
          else ""))
  else none

/-- The standalone primary-phone DNC segment, app.py lines 169-170: added
when the `phone_1_dnc` column exists and its cell is present. -/
def primaryDncPart (hdr : List String) (r : List Cell) : List String :=
  if "phone_1_dnc" ∈ hdr ∧ notna (getCell hdr r "phone_1_dnc") then
    ["Primary Phone DNC: " ++ pyAstypeStr (getCell hdr r "phone_1_dnc")]
  else []

/-- `df_target['Notes']` for one row, app.py lines 149-172: insight first,
then the remaining available note fields in declared order, then the
primary-phone DNC segment, joined by `" | "`. -/
def notesVal (hdr : List String) (r : List Cell) : String :=
  String.intercalate " | "
    (insightPart hdr r
      ++ (availableNoteCols hdr).filterMap
           (fun p => if p.1 = "insight" then none else noteEntry hdr r p.1 p.2)
      ++ primaryDncPart hdr r)

/-- One derived row of `df_target`, in the order of `RECHAT_COLUMNS`
(app.py lines 76-185; `Birthday`, `Home Anniversary` and the spouse fields
are always empty, lines 179-185). -/
def deriveRow (hdr : List String) (r : List Cell) : List String :=
  [firstNameVal hdr r, lastNameVal hdr r, marketingVal hdr r, phoneVal hdr r,
   emailVal hdr r, addressVal hdr r, "", "", tag1Val hdr r, tag2Val hdr r,
   notesVal hdr r, "", "", "", "", ""]

/-- Pandas column selection `df[key]` by a list of labels, on an axis that
may contain duplicate labels: for each label of `key`, in order, the
positions of all matching columns are taken (pandas
`Index.get_indexer_non_unique`, used by `DataFrame.__getitem__` for a
non-unique column index).  A label occurring twice in both the axis and the
key therefore contributes two positions twice. -/
def selIdxs (cols : List String) (key : List String) : List Nat :=
  key.flatMap (fun k => ((cols.enum.filter (fun p => p.2 == k)).map (fun p => p.1)))

/-- Projection of one derived row through the final column selection
`df_target[RECHAT_COLUMNS]`, app.py line 194. -/
def transformRow (hdr : List String) (r : List Cell) : List String :=
  (selIdxs RECHAT_COLUMNS RECHAT_COLUMNS).map
    (fun i => (deriveRow hdr r).getD i "")

/-- Header produced by the final column selection
`df_target[RECHAT_COLUMNS]`, app.py line 194. -/
def outputHeader : List String :=
  (selIdxs RECHAT_COLUMNS RECHAT_COLUMNS).map (fun i => RECHAT_COLUMNS.getD i "")

/-- The whole conversion, app.py `main` lines 43-212: clean the headers,
fail on missing required columns (line 63-65), otherwise derive one output
row per source row and apply the final column selection. -/
def convert (t : SourceTable) : Except ConvError TargetTable :=
  let hdr := cleanedHeader t
  if missingCoreCols hdr = [] then
    Except.ok ⟨outputHeader, (t.rows.map (deriveRow hdr)).map
      (fun dr => (selIdxs RECHAT_COLUMNS RECHAT_COLUMNS).map
        (fun i => dr.getD i ""))⟩
  else
    Except.error (ConvError.missingColumns (missingCoreCols hdr))

/-! Concrete tables used by witnesses and counterexamples. -/

/-- Header actually emitted by the final selection
`df_target[RECHAT_COLUMNS]` (line 194): because both the column axis and
the selection list contain `'Tag'` twice, each of the two `'Tag'` entries of
the list selects both `'Tag'` columns, so the emitted header has four
`'Tag'` columns (18 columns in total). -/
def DUPLICATED_OUTPUT_HEADER : List String :=
  ["First Name", "Last Name", "Marketing Name", "Phone", "Email", "Address",
   "Birthday", "Home Anniversary", "Tag", "Tag", "Tag", "Tag", "Notes",
   "Spouse/Partner - First Name", "Spouse/Partner - Last Name",
   "Spouse/Partner - Email", "Spouse/Partner - Phone",
   "Spouse/Partner Birthday"]

/-- A minimal valid upload: all required columns (one with the whitespace
the tool strips), one data row. -/
def witnessTable : SourceTable :=
  ⟨["first_name ", "last_name", "email_1", "phone_1", "address", "city",
    "state", "zip_code"],
   [[some "Jane", some "Doe", some "j@x.com", some "5551234567",
     some "12 Elm St", some "Springfield", some "IL", some "62704"]]⟩

/-- The table `convert` produces for `witnessTable`. -/
def witnessOutput : TargetTable :=
  ⟨DUPLICATED_OUTPUT_HEADER,
   [["Jane", "Doe", "Jane Doe", "5551234567", "j@x.com",
     "12 Elm St, Springfield IL 62704", "", "", "", "", "", "", "", "", "",
     "", "", ""]]⟩

/-- C1: the code renders a missing `phone_1` / `zip_code` cell as the
literal string `"nan"`, not as the empty string the spec requires: line 81
(and 86) runs `astype(str)` first, which turns `NaN` into the string
`"nan"`, so the subsequent `fillna('')` never fires.  The `\.0$`-stripping
half of the claim does hold (`"62704.0"` renders as `"62704"`). -/
theorem c1_numeric_render_bug :
    renderNumericStr none = "nan"
  ∧ "nan" ≠ ""
  ∧ renderNumericStr (some "62704.0") = "62704"
  ∧ renderNumericStr (some "5551234567.0") = "5551234567"
  ∧ phoneVal CORE_SOURCE_COLUMNS
      [some "Jane", some "Doe", some "j@x.com", none, some "12 Elm St",
       some "Springfield", some "IL", none] = "nan"
  ∧ addressVal CORE_SOURCE_COLUMNS
      [some "Jane", some "Doe", some "j@x.com", none, some "12 Elm St",
       some "Springfield", some "IL", none]
      = "12 Elm St, Springfield IL nan" := by
  decide

/-- C2: for every valid upload the emitted header is the 18-column
`DUPLICATED_OUTPUT_HEADER` (with four `'Tag'` columns), not the declared
16-column `RECHAT_COLUMNS`: the final selection `df_target[RECHAT_COLUMNS]`
on a column axis that already contains `'Tag'` twice duplicates both
`'Tag'` columns for each of the two `'Tag'` entries of the selection list.
This holds regardless of source column order, as the two zero-row uploads
with differently ordered headers show. -/
theorem c2_header_duplication_bug :
    convert ⟨CORE_SOURCE_COLUMNS, []⟩
      = Except.ok ⟨DUPLICATED_OUTPUT_HEADER, []⟩
  ∧ convert ⟨CORE_SOURCE_COLUMNS.reverse, []⟩
      = Except.ok ⟨DUPLICATED_OUTPUT_HEADER, []⟩
  ∧ DUPLICATED_OUTPUT_HEADER ≠ RECHAT_COLUMNS := by
  decide

/-- C10: a source table with all required columns and zero data rows
converts without error to a zero-row output table; but its header is the
18-column `DUPLICATED_OUTPUT_HEADER` produced by the duplicate-label
selection of line 194, not the declared 16-column target schema. -/
theorem c10_empty_table_bug :
    convert ⟨CORE_SOURCE_COLUMNS ++ ["insight"], []⟩
      = Except.ok ⟨DUPLICATED_OUTPUT_HEADER, []⟩
  ∧ (⟨DUPLICATED_OUTPUT_HEADER, ([] : List (List String))⟩ : TargetTable).rows.length = 0
  ∧ DUPLICATED_OUTPUT_HEADER ≠ RECHAT_COLUMNS := by
  decide

/-- C7: a source table missing at least one required column (after header
trimming) is rejected with an error naming exactly the missing required
columns, and no output table is produced. -/
theorem c7_required_gate (t : SourceTable)
    (h : missingCoreCols (cleanedHeader t) ≠ []) :
    convert t
      = Except.error (ConvError.missingColumns (missingCoreCols (cleanedHeader t))) := by
  unfold convert
  rw [if_neg h]

/-- Witness for C7: dropping `zip_code` (among others) really trips the
gate, with the error naming the missing required columns. -/
theorem c7_required_gate_witness :
    missingCoreCols (cleanedHeader ⟨["first_name ", "last_name"], []⟩) ≠ []
  ∧ convert ⟨["first_name ", "last_name"], []⟩
      = Except.error (ConvError.missingColumns
          ["email_1", "phone_1", "address", "city", "state", "zip_code"]) := by
  refine ⟨by decide, ?_⟩
  rw [c7_required_gate ⟨["first_name ", "last_name"], []⟩ (by decide)]
  decide

/-- C3: whenever `convert` succeeds, the output rows are exactly the
row-wise image of the source rows, in source order (no filtering, no
reordering), so in particular the row count is preserved. -/
theorem c3_row_preservation (t : SourceTable) (out : TargetTable)
    (h : convert t = Except.ok out) :
    out.rows = t.rows.map (transformRow (cleanedHeader t))
      ∧ out.rows.length = t.rows.length := by
  unfold convert at h
  by_cases hm : missingCoreCols (cleanedHeader t) = []
  · rw [if_pos hm] at h
    cases h
    refine ⟨?_, by simp⟩
    rw [List.map_map]
    rfl
  · rw [if_neg hm] at h
    exact absurd h (by simp)

/-- Witness for C3: the one-row `witnessTable` converts to the one-row
`witnessOutput`, which is the row-wise image of its source row. -/
theorem c3_row_preservation_witness :
    witnessOutput.rows
        = witnessTable.rows.map (transformRow (cleanedHeader witnessTable))
      ∧ witnessOutput.rows.length = witnessTable.rows.length := by
  exact c3_row_preservation witnessTable witnessOutput (by decide)

/-- C4: the first `'Tag'` cell is `"Homeowner"` exactly when the
`home_owner_status` column is present in the (cleaned) schema and the row's
value, stripped and lower-cased, is `"home owner"`; in every other case
(other value, missing/NaN value, absent column) it is the empty string. -/
theorem c4_homeowner_tag (hdr : List String) (r : List Cell) :
    (tag1Val hdr r = "Homeowner" ↔
      ("home_owner_status" ∈ hdr ∧
        ∃ s, getCell hdr r "home_owner_status" = some s
          ∧ pyLower (pyStrip s) = "home owner"))
  ∧ (tag1Val hdr r = "Homeowner" ∨ tag1Val hdr r = "") := by
  constructor
  · by_cases hm : "home_owner_status" ∈ hdr
    · cases hc : getCell hdr r "home_owner_status" with
      | none =>
        simp only [tag1Val, hm, if_true, hc, pyAstypeStr]
        rw [if_neg (by decide)]
        simp
      | some s =>
        simp only [tag1Val, hm, if_true, hc, pyAstypeStr]
        by_cases hs : pyLower (pyStrip s) = "home owner"
        · rw [if_pos hs]
          simp [hm, hs]
        · rw [if_neg hs]
          simp [hs]
    · simp [tag1Val, hm]
  · unfold tag1Val
    split
    · split
      · exact Or.inl rfl
      · exact Or.inr rfl
    · exact Or.inr rfl

/-- C5: the second `'Tag'` cell is the `", "`-join, in declared order, of
the names of the marker columns that are present in the (cleaned) schema
and whose cell value, stripped and lower-cased, equals `"x"`; when no
marker column is present this is the empty string (the join of an empty
list), and the conversion is total either way. -/
theorem c5_marker_tag (hdr : List String) (r : List Cell) :
    tag2Val hdr r = String.intercalate ", "
      (SOURCE_TAG_MARKER_COLS.filter
        (fun c => decide (c ∈ hdr)
          && (pyLower (pyStrip (pyAstypeStr (getCell hdr r c))) == "x"))) := by
  have h1 : SOURCE_TAG_MARKER_COLS.filter
      (fun c => decide (c ∈ hdr)
        && (pyLower (pyStrip (pyAstypeStr (getCell hdr r c))) == "x"))
      = rowMarkers hdr r := by
    unfold rowMarkers availableMarkers
    rw [List.filter_filter]
    exact List.filter_congr (fun c _ => Bool.and_comm _ _)
  rw [h1]
  unfold tag2Val
  by_cases h : availableMarkers hdr = []
  · rw [if_neg (by simp [h])]
    unfold rowMarkers
    rw [h]
    rfl
  · rw [if_pos h]

/-! Claim C6: the Notes synthesis.  The code appends the DNC decorations
whenever the DNC cell is present (`pd.notna`), even when it is blank
whitespace, while the claim requires the cell to be non-blank; apart from
this the claim describes the code exactly. -/

/-- Note fields after `insight`, in declared order. -/
def NOTE_TAIL : List (String × String) :=
  [("occupation", "Occupation:"), ("gender", "Gender:"),
   ("age", "Age:"), ("marital_status", "Marital Status:"),
   ("n_household_children", "# Children:"), ("credit_range", "Credit:"),
   ("household_income", "Income:"), ("household_net_worth", "Net Worth:"),
   ("email_2", "Email 2:"), ("email_3", "Email 3:"),
   ("phone_2", "Phone 2:"), ("phone_3", "Phone 3:")]

theorem noteColsMap_eq : noteColsMap = ("insight", "") :: NOTE_TAIL := rfl

/-- Segment that the amended claim C6 assigns to one note field: a field
present in the schema whose value is present and non-blank after stripping
contributes `"<label> <stripped value>"` (the bare stripped value for
`insight`), the `phone_2` / `phone_3` segment carrying a
`" (DNC: <value>)"` suffix when the matching DNC column exists and its
cell is present (not NaN). -/
def specNoteSegment (hdr : List String) (r : List Cell) (p : String × String) :
    Option String :=
  if p.1 ∈ hdr then
    if notna (getCell hdr r p.1)
        ∧ pyStrip (pyAstypeStr (getCell hdr r p.1)) ≠ "" then
      some (if p.1 = "insight" then pyStrip (pyAstypeStr (getCell hdr r p.1))
        else (p.2 ++ " " ++ pyStrip (pyAstypeStr (getCell hdr r p.1)))
          ++ (if p.1 = "phone_2" ∧ "phone_2_dnc" ∈ hdr
                ∧ notna (getCell hdr r "phone_2_dnc") then
                " (DNC: " ++ pyAstypeStr (getCell hdr r "phone_2_dnc") ++ ")"
              else "")
          ++ (if p.1 = "phone_3" ∧ "phone_3_dnc" ∈ hdr
                ∧ notna (getCell hdr r "phone_3_dnc") then
                " (DNC: " ++ pyAstypeStr (getCell hdr r "phone_3_dnc") ++ ")"
              else ""))
    else none
  else none

/-- The Notes cell as the amended claim C6 describes it: one pass over the
note fields in declared order (insight first, without a label), then the
standalone primary-phone DNC segment (whose amended condition, the cell
being present, is the code's `pd.notna` check), joined by `" | "`. -/
def notesSpecVal (hdr : List String) (r : List Cell) : String :=
  String.intercalate " | "
    (noteColsMap.filterMap (specNoteSegment hdr r) ++ primaryDncPart hdr r)

/-- Filtering before a filterMap fuses into one filterMap. -/
theorem filterMap_filter_fuse {α β : Type} (l : List α) (q : α → Bool)
    (f : α → Option β) :
    (l.filter q).filterMap f
      = l.filterMap (fun a => if q a = true then f a else none) := by
  induction l with
  | nil => rfl
  | cons a l ih =>
    by_cases h : q a = true
    · simp only [List.filter_cons, h, if_true, List.filterMap_cons, ih]
    · simp only [List.filter_cons, h, if_false, List.filterMap_cons, ih,
        Bool.false_eq_true]

/-- An `any` over a filtered list is an `any` with a conjoined predicate. -/
theorem any_filter_fuse {α : Type} (l : List α) (q p : α → Bool) :
    (l.filter q).any p = l.any (fun a => p a && q a) := by
  induction l with
  | nil => rfl
  | cons a l ih =>
    by_cases h : q a = true
    · simp [List.filter_cons, h, ih]
    · simp [List.filter_cons, h, ih]

/-- A `filterMap` over a cons, in append form. -/
theorem filterMap_cons_toList {α β : Type} (a : α) (l : List α)
    (f : α → Option β) :
    (a :: l).filterMap f = (f a).toList ++ l.filterMap f := by
  cases h : f a <;> simp [List.filterMap_cons, h]

/-- The availability check for `insight` is membership in the schema. -/
theorem insight_avail (hdr : List String) :
    ((availableNoteCols hdr).any (fun p => p.1 == "insight"))
      = decide ("insight" ∈ hdr) := by
  unfold availableNoteCols
  rw [any_filter_fuse]
  by_cases h : "insight" ∈ hdr <;> simp [noteColsMap, h]

/-- The insight segment of the code is the head segment of the spec pass. -/
theorem insight_head (hdr : List String) (r : List Cell) :
    insightPart hdr r = (specNoteSegment hdr r ("insight", "")).toList := by
  unfold insightPart specNoteSegment
  by_cases h : "insight" ∈ hdr
  · by_cases h2 : notna (getCell hdr r "insight")
        ∧ pyStrip (pyAstypeStr (getCell hdr r "insight")) ≠ ""
    · rw [if_pos ⟨by rw [insight_avail, decide_eq_true_eq]; exact h, h2⟩]
      simp [h, h2]
    · rw [if_neg (fun hc => h2 ⟨hc.2.1, hc.2.2⟩)]
      simp only [h, if_true]
      rw [if_neg h2]
      rfl
  · rw [if_neg (fun hc => h (by
      have := hc.1
      rw [insight_avail, decide_eq_true_eq] at this
      exact this))]
    simp [h]

/-- On non-insight fields the code's segment is the spec's segment. -/
theorem noteEntry_eq_spec (hdr : List String) (r : List Cell)
    (p : String × String) (hne : p.1 ≠ "insight") :
    (if decide (p.1 ∈ hdr) = true
      then (if p.1 = "insight" then none else noteEntry hdr r p.1 p.2)
      else none)
      = specNoteSegment hdr r p := by
  by_cases h : p.1 ∈ hdr
  · rw [if_pos (by rw [decide_eq_true_eq]; exact h), if_neg hne]
    unfold specNoteSegment noteEntry
    rw [if_pos h]
    by_cases h2 : notna (getCell hdr r p.1)
        ∧ pyStrip (pyAstypeStr (getCell hdr r p.1)) ≠ ""
    · rw [if_pos h2, if_pos h2, if_neg hne]
    · rw [if_neg h2, if_neg h2]
  · rw [if_neg (by rw [decide_eq_true_eq]; exact h)]
    unfold specNoteSegment
    rw [if_neg h]

/-- C6 (amended): the Notes cell is built by iterating the note fields in
declared order (insight first, without a label), appending
`"<label> <stripped value>"` for each field present in the schema with a
present non-blank value, joining the segments with `" | "`; the
`" (DNC: <value>)"` suffix on the `phone_2` / `phone_3` segment and the
standalone `"Primary Phone DNC: <value>"` segment are appended exactly when
the corresponding DNC column exists and its cell is present (`pd.notna`) --
the cell need not be non-blank. -/
theorem c6_notes_amended (hdr : List String) (r : List Cell) :
    notesVal hdr r = notesSpecVal hdr r := by
  unfold notesVal notesSpecVal availableNoteCols
  rw [filterMap_filter_fuse]
  rw [noteColsMap_eq, filterMap_cons_toList, filterMap_cons_toList]
  have hhead : (if decide (("insight", "").1 ∈ hdr) = true
      then (if ("insight", ("" : String)).1 = "insight" then none
            else noteEntry hdr r ("insight", "").1 ("insight", "").2)
      else none) = (none : Option String) := by
    by_cases h : ("insight", "").1 ∈ hdr <;> simp [h]
  rw [hhead]
  have htail : NOTE_TAIL.filterMap
      (fun p => if decide (p.1 ∈ hdr) = true
        then (if p.1 = "insight" then none else noteEntry hdr r p.1 p.2)
        else none)
      = NOTE_TAIL.filterMap (specNoteSegment hdr r) := by
    apply List.filterMap_congr
    intro p hp
    exact noteEntry_eq_spec hdr r p
      (by
        have : ∀ q ∈ NOTE_TAIL, q.1 ≠ "insight" := by decide
        exact this p hp)
  rw [htail, insight_head]
  simp

/-- C6 is false as stated: a present but blank (whitespace-only)
`phone_2_dnc` cell still triggers the DNC suffix, because the code checks
`pd.notna`, not non-blankness.  With `phone_2 = "5559876543"`,
`phone_2_dnc = " "` and `insight = "Looking to sell"`, the Notes cell
carries a `" (DNC:  )"` suffix although the DNC value is blank. -/
theorem c6_dnc_blank_counterexample :
    pyStrip " " = ""
  ∧ notesVal
      ["first_name", "last_name", "email_1", "phone_1", "address", "city",
       "state", "zip_code", "phone_2", "phone_2_dnc", "insight"]
      [some "Jane", some "Doe", some "j@x.com", some "5551234567",
       some "12 Elm St", some "Springfield", some "IL", some "62704",
       some "5559876543", some " ", some "Looking to sell"]
      = "Looking to sell | Phone 2: 5559876543 (DNC:  )"
  ∧ notesVal
      ["first_name", "last_name", "email_1", "phone_1", "address", "city",
       "state", "zip_code", "phone_2", "phone_2_dnc", "insight"]
      [some "Jane", some "Doe", some "j@x.com", some "5551234567",
       some "12 Elm St", some "Springfield", some "IL", some "62704",
       some "5559876543", some " ", some "Looking to sell"]
      ≠ "Looking to sell | Phone 2: 5559876543" := by
  decide

/-! Claim C8: graceful degradation on a removed optional column. -/

/-- Removal of one source column, by cleaned name: every column whose
stripped header equals `o` is dropped, together with its cells. -/
def removeColumn (t : SourceTable) (o : String) : SourceTable :=
  ⟨t.header.filter (fun h => !(pyStrip h == o)),
   t.rows.map (fun r =>
     ((t.header.zip r).filter (fun p => !(pyStrip p.1 == o))).map
       (fun p => p.2))⟩

/-- The cleaned header of the reduced table is the filtered cleaned
header. -/
theorem cleanedHeader_removeColumn (t : SourceTable) (o : String) :
    cleanedHeader (removeColumn t o)
      = (cleanedHeader t).filter (fun h => !(h == o)) := by
  unfold cleanedHeader removeColumn
  rw [List.filter_map]
  rfl

/-- Required and optional column names never coincide. -/
theorem core_ne_optional :
    ∀ c ∈ CORE_SOURCE_COLUMNS, ∀ q ∈ OPTIONAL_SOURCE_COLUMNS, c ≠ q := by
  decide

/-- C8: removing any single optional source column from a table that has
all required columns keeps the conversion successful, makes the
optional-column warning name the removed column, and empties/omits every
derived piece that depends on it: the first Tag cell is empty when
`home_owner_status` was removed, a removed marker column never appears in
the second Tag cell, no note segment is generated from a removed note
field (in particular the insight segment disappears), the standalone
primary-DNC segment disappears with `phone_1_dnc`, and the phone-2/phone-3
segments lose their DNC suffix with `phone_2_dnc` / `phone_3_dnc`. -/
theorem c8_optional_degradation (t : SourceTable) (o : String)
    (ho : o ∈ OPTIONAL_SOURCE_COLUMNS)
    (hreq : missingCoreCols (cleanedHeader t) = []) :
    (∃ out, convert (removeColumn t o) = Except.ok out)
  ∧ o ∈ missingOptionalCols (cleanedHeader (removeColumn t o))
  ∧ (availableNoteCols (cleanedHeader (removeColumn t o))).all
      (fun p => !(p.1 == o))
  ∧ (∀ r ∈ (removeColumn t o).rows,
      (o = "home_owner_status"
        → tag1Val (cleanedHeader (removeColumn t o)) r = "")
      ∧ (o ∈ SOURCE_TAG_MARKER_COLS
        → o ∉ rowMarkers (cleanedHeader (removeColumn t o)) r)
      ∧ (o = "insight" → insightPart (cleanedHeader (removeColumn t o)) r = [])
      ∧ (o = "phone_1_dnc"
        → primaryDncPart (cleanedHeader (removeColumn t o)) r = [])
      ∧ (o = "phone_2_dnc"
        → noteEntry (cleanedHeader (removeColumn t o)) r "phone_2" "Phone 2:"
          = (if notna (getCell (cleanedHeader (removeColumn t o)) r "phone_2")
                ∧ pyStrip (pyAstypeStr
                    (getCell (cleanedHeader (removeColumn t o)) r "phone_2"))
                  ≠ "" then
              some ("Phone 2:" ++ " " ++ pyStrip (pyAstypeStr
                (getCell (cleanedHeader (removeColumn t o)) r "phone_2")))
            else none))
      ∧ (o = "phone_3_dnc"
        → noteEntry (cleanedHeader (removeColumn t o)) r "phone_3" "Phone 3:"
          = (if notna (getCell (cleanedHeader (removeColumn t o)) r "phone_3")
                ∧ pyStrip (pyAstypeStr
                    (getCell (cleanedHeader (removeColumn t o)) r "phone_3"))
                  ≠ "" then
              some ("Phone 3:" ++ " " ++ pyStrip (pyAstypeStr
                (getCell (cleanedHeader (removeColumn t o)) r "phone_3")))
            else none))) := by
  have hdrEq := cleanedHeader_removeColumn t o
  have hno : o ∉ cleanedHeader (removeColumn t o) := by
    rw [hdrEq]
    intro hmem
    have hb := (List.mem_filter.mp hmem).2
    simp at hb
  have hcore : ∀ c ∈ CORE_SOURCE_COLUMNS, c ∈ cleanedHeader (removeColumn t o) := by
    intro c hc
    have h1 : c ∈ cleanedHeader t := by
      have h2 := List.filter_eq_nil_iff.mp hreq c hc
      simp only [Bool.not_eq_true', Bool.not_eq_false] at h2
      exact List.elem_iff.mp h2
    rw [hdrEq]
    refine List.mem_filter.mpr ⟨h1, ?_⟩
    simp [core_ne_optional c hc o ho]
  have hmiss : missingCoreCols (cleanedHeader (removeColumn t o)) = [] := by
    unfold missingCoreCols
    refine List.filter_eq_nil_iff.mpr ?_
    intro c hc
    simp only [Bool.not_eq_true', Bool.not_eq_false]
    exact List.elem_iff.mpr (hcore c hc)
  refine ⟨⟨_, by unfold convert; rw [if_pos hmiss]⟩, ?_, ?_, ?_⟩
  · unfold missingOptionalCols
    refine List.mem_filter.mpr ⟨ho, ?_⟩
    simp only [Bool.not_eq_true']
    exact Bool.not_eq_true _ ▸ (by
      intro hcontra
      exact hno (List.elem_iff.mp hcontra))
  · refine List.all_eq_true.mpr ?_
    intro p hp
    have hpmem := (List.mem_filter.mp hp).2
    simp only [decide_eq_true_eq] at hpmem
    simp only [Bool.not_eq_true']
    refine beq_eq_false_iff_ne.mpr ?_
    intro hpe
    exact hno (hpe ▸ hpmem)
  · intro r _
    refine ⟨?_, ?_, ?_, ?_, ?_, ?_⟩
    · intro hoe
      subst hoe
      unfold tag1Val
      rw [if_neg hno]
    · intro _ hmem
      have h1 := (List.mem_filter.mp hmem).1
      have h2 := (List.mem_filter.mp h1).2
      simp only [decide_eq_true_eq] at h2
      exact hno h2
    · intro hoe
      subst hoe
      unfold insightPart
      rw [if_neg]
      intro hc
      have h1 := hc.1
      rw [insight_avail, decide_eq_true_eq] at h1
      exact hno h1
    · intro hoe
      subst hoe
      unfold primaryDncPart
      rw [if_neg]
      intro hc
      exact hno hc.1
    · intro hoe
      subst hoe
      unfold noteEntry
      by_cases h2 : notna (getCell (cleanedHeader (removeColumn t "phone_2_dnc")) r "phone_2")
          ∧ pyStrip (pyAstypeStr
              (getCell (cleanedHeader (removeColumn t "phone_2_dnc")) r "phone_2")) ≠ ""
      · rw [if_pos h2, if_pos h2]
        rw [if_neg (fun hc => hno hc.2.1),
          if_neg (fun hc => absurd hc.1 (by decide))]
        rw [String.append_empty, String.append_empty]
      · rw [if_neg h2, if_neg h2]
    · intro hoe
      subst hoe
      unfold noteEntry
      by_cases h2 : notna (getCell (cleanedHeader (removeColumn t "phone_3_dnc")) r "phone_3")
          ∧ pyStrip (pyAstypeStr
              (getCell (cleanedHeader (removeColumn t "phone_3_dnc")) r "phone_3")) ≠ ""
      · rw [if_pos h2, if_pos h2]
        rw [if_neg (fun hc => absurd hc.1 (by decide)),
          if_neg (fun hc => hno hc.2.1)]
        rw [String.append_empty, String.append_empty]
      · rw [if_neg h2, if_neg h2]

/-- A valid upload carrying the optional `home_owner_status` column, used
to witness C8. -/
def c8Table : SourceTable :=
  ⟨["first_name", "last_name", "email_1", "phone_1", "address", "city",
    "state", "zip_code", "home_owner_status"],
   [[some "Jane", some "Doe", some "j@x.com", some "5551234567",
     some "12 Elm St", some "Springfield", some "IL", some "62704",
     some "Home Owner"]]⟩

/-- Witness for C8: removing `home_owner_status` from `c8Table` keeps the
conversion successful, the warning names the removed column, and the first
Tag cell of the surviving row is empty. -/
theorem c8_optional_degradation_witness :
    (∃ out, convert (removeColumn c8Table "home_owner_status") = Except.ok out)
  ∧ "home_owner_status"
      ∈ missingOptionalCols (cleanedHeader (removeColumn c8Table "home_owner_status"))
  ∧ tag1Val (cleanedHeader (removeColumn c8Table "home_owner_status"))
      [some "Jane", some "Doe", some "j@x.com", some "5551234567",
       some "12 Elm St", some "Springfield", some "IL", some "62704"] = "" :=
  ⟨(c8_optional_degradation c8Table "home_owner_status" (by decide) (by decide)).1,
   (c8_optional_degradation c8Table "home_owner_status" (by decide) (by decide)).2.1,
   (((c8_optional_degradation c8Table "home_owner_status" (by decide)
       (by decide)).2.2.2
      [some "Jane", some "Doe", some "j@x.com", some "5551234567",
       some "12 Elm St", some "Springfield", some "IL", some "62704"]
      (by decide)).1) rfl⟩

/-! Claim C9: idempotence of the address-normalization pass.  The pass is
not idempotent in general (each application strips only one leading and one
trailing comma), but it is a no-op on any output that does not start or end
with a comma.  The development below establishes the shape invariants of
`normChars` outputs (no surrounding whitespace, no double whitespace, no
whitespace before a comma) and derives the conditional idempotence. -/

/-- The list does not start with a whitespace character. -/
def noLeadWs (l : List Char) : Bool :=
  match l.head? with
  | some c => !c.isWhitespace
  | none => true

/-- The list does not end with a whitespace character. -/
def noTrailWs (l : List Char) : Bool :=
  match l.getLast? with
  | some c => !c.isWhitespace
  | none => true

/-- No two adjacent whitespace characters. -/
def noDoubleWs : List Char → Bool
  | c1 :: c2 :: rest =>
    (!(c1.isWhitespace && c2.isWhitespace)) && noDoubleWs (c2 :: rest)
  | _ => true

/-- No whitespace character immediately before a comma. -/
def noWsBeforeComma : List Char → Bool
  | c1 :: c2 :: rest =>
    (!(c1.isWhitespace && c2 == ',')) && noWsBeforeComma (c2 :: rest)
  | _ => true

/-- Prepending to a nonempty list does not change its last character. -/
theorem noTrailWs_cons (c : Char) (l : List Char) (h : l ≠ []) :
    noTrailWs (c :: l) = noTrailWs l := by
  cases l with
  | nil => exact absurd rfl h
  | cons d tl => unfold noTrailWs; rw [List.getLast?_cons_cons]

theorem noDoubleWs_tail {c : Char} {l : List Char}
    (h : noDoubleWs (c :: l)) : noDoubleWs l := by
  cases l with
  | nil => rfl
  | cons d tl =>
    unfold noDoubleWs at h
    exact (Bool.and_eq_true_iff.mp h).2

theorem noWsBeforeComma_tail {c : Char} {l : List Char}
    (h : noWsBeforeComma (c :: l)) : noWsBeforeComma l := by
  cases l with
  | nil => rfl
  | cons d tl =>
    unfold noWsBeforeComma at h
    exact (Bool.and_eq_true_iff.mp h).2

/-- A `dropWhile` output never starts with a character satisfying the
dropped predicate; whitespace instance. -/
theorem noLeadWs_dropWhile (l : List Char) :
    noLeadWs (l.dropWhile Char.isWhitespace) := by
  induction l with
  | nil => rfl
  | cons c rest ih =>
    rw [List.dropWhile_cons]
    by_cases h : c.isWhitespace
    · rw [if_pos h]; exact ih
    · rw [if_neg (by simpa using h)]
      unfold noLeadWs
      simpa using h

/-- A nonempty `dropWhile` output keeps the last character. -/
theorem getLast?_dropWhile (l : List Char)
    (h : l.dropWhile Char.isWhitespace ≠ []) :
    (l.dropWhile Char.isWhitespace).getLast? = l.getLast? := by
  induction l with
  | nil => rfl
  | cons c rest ih =>
    rw [List.dropWhile_cons]
    by_cases hc : c.isWhitespace
    · rw [List.dropWhile_cons, if_pos hc] at h
      rw [if_pos hc, ih h]
      have hrest : rest ≠ [] := by
        intro he
        rw [he] at h
        exact h rfl
      cases rest with
      | nil => exact absurd rfl hrest
      | cons d tl => rw [List.getLast?_cons_cons]
    · rw [if_neg (by simpa using hc)]

/-- A stripped list has no leading and no trailing whitespace. -/
theorem stripEndsWs_invariants (l : List Char) :
    noLeadWs (stripEndsWs l) ∧ noTrailWs (stripEndsWs l) := by
  unfold stripEndsWs
  constructor
  · unfold noLeadWs
    rw [List.head?_reverse]
    by_cases h : (l.dropWhile Char.isWhitespace).reverse.dropWhile Char.isWhitespace = []
    · rw [h]; rfl
    · rw [getLast?_dropWhile _ h, List.getLast?_reverse]
      have h2 := noLeadWs_dropWhile l
      unfold noLeadWs at h2
      exact h2
  · unfold noTrailWs
    rw [List.getLast?_reverse]
    have h2 := noLeadWs_dropWhile (l.dropWhile Char.isWhitespace).reverse
    unfold noLeadWs at h2
    exact h2

/-- `collapseWs` of a nonempty list is nonempty. -/
theorem collapseWs_ne_nil {l : List Char} (h : l ≠ []) : collapseWs l ≠ [] := by
  cases l with
  | nil => exact absurd rfl h
  | cons c rest =>
    simp only [collapseWs]
    by_cases hc : c.isWhitespace
    · rw [if_pos hc]
      split
      · next d tl heq => by_cases hd : d.isWhitespace <;> simp [hd]
      · simp
    · rw [if_neg hc]; simp

/-- `collapseWs` keeps a non-whitespace head in place. -/
theorem collapseWs_cons_of_not_ws {c : Char} (rest : List Char)
    (h : ¬c.isWhitespace) :
    collapseWs (c :: rest) = c :: collapseWs rest := by
  simp only [collapseWs]
  rw [if_neg h]

/-- `collapseWs` output never has two adjacent whitespace characters. -/
theorem noDoubleWs_collapseWs (l : List Char) : noDoubleWs (collapseWs l) := by
  induction l with
  | nil => rfl
  | cons c rest ih =>
    simp only [collapseWs]
    by_cases hc : c.isWhitespace
    · rw [if_pos hc]
      split
      · next d tl heq =>
        rw [heq] at ih
        by_cases hd : d.isWhitespace
        · rw [if_pos hd]
          cases tl with
          | nil => rfl
          | cons e tl2 =>
            unfold noDoubleWs at ih ⊢
            have h1 := (Bool.and_eq_true_iff.mp ih).1
            have h2 := (Bool.and_eq_true_iff.mp ih).2
            rw [hd] at h1
            simp only [Bool.true_and, Bool.not_eq_true'] at h1
            refine Bool.and_eq_true_iff.mpr ⟨?_, h2⟩
            simp [h1]
        · rw [if_neg hd]
          unfold noDoubleWs
          refine Bool.and_eq_true_iff.mpr ⟨?_, ih⟩
          simp [hd]
      · rfl
    · rw [if_neg hc]
      cases hacc : collapseWs rest with
      | nil => rfl
      | cons d tl =>
        rw [hacc] at ih
        unfold noDoubleWs
        refine Bool.and_eq_true_iff.mpr ⟨?_, ih⟩
        simp [hc]

/-- `collapseWs` keeps the no-leading-whitespace invariant. -/
theorem noLeadWs_collapseWs {l : List Char} (h : noLeadWs l) :
    noLeadWs (collapseWs l) := by
  cases l with
  | nil => rfl
  | cons c rest =>
    unfold noLeadWs at h
    simp only [List.head?_cons, Bool.not_eq_true'] at h
    rw [collapseWs_cons_of_not_ws rest (by simp [h])]
    unfold noLeadWs
    simp [h]

/-- `collapseWs` keeps the no-trailing-whitespace invariant. -/
theorem noTrailWs_collapseWs {l : List Char} (h : noTrailWs l) :
    noTrailWs (collapseWs l) := by
  induction l with
  | nil => rfl
  | cons c rest ih =>
    cases hrest : rest with
    | nil =>
      subst hrest
      simp only [collapseWs]
      by_cases hc : c.isWhitespace
      · rw [if_pos hc]; exact h
      · rw [if_neg hc]; exact h
    | cons d0 tl0 =>
      have hrne : rest ≠ [] := by rw [hrest]; simp
      rw [← hrest] at *
      have htrest : noTrailWs rest := by rw [← noTrailWs_cons c rest hrne]; exact h
      have ihr := ih htrest
      have haccne : collapseWs rest ≠ [] := collapseWs_ne_nil hrne
      simp only [collapseWs]
      by_cases hc : c.isWhitespace
      · rw [if_pos hc]
        split
        · next d tl heq =>
          rw [heq] at ihr
          by_cases hd : d.isWhitespace
          · rw [if_pos hd]
            cases tl with
            | nil =>
              unfold noTrailWs at ihr
              simp only [List.getLast?_singleton, Bool.not_eq_true'] at ihr
              rw [hd] at ihr
              exact absurd ihr (by simp)
            | cons e tl2 =>
              rw [noTrailWs_cons ' ' (e :: tl2) (by simp)]
              rw [noTrailWs_cons d (e :: tl2) (by simp)] at ihr
              exact ihr
          · rw [if_neg hd]
            rw [noTrailWs_cons c (d :: tl) (by simp)]
            exact ihr
        · next heq => exact absurd heq haccne
      · rw [if_neg hc]
        cases hacc : collapseWs rest with
        | nil => exact absurd hacc haccne
        | cons d tl =>
          rw [hacc] at ihr
          rw [noTrailWs_cons c (d :: tl) (by simp)]
          exact ihr

/-- `stripWsBeforeComma` of a nonempty list is nonempty. -/
theorem stripWsBeforeComma_ne_nil {l : List Char} (h : l ≠ []) :
    stripWsBeforeComma l ≠ [] := by
  cases l with
  | nil => exact absurd rfl h
  | cons c rest =>
    simp only [stripWsBeforeComma]
    by_cases hc : c.isWhitespace
    · rw [if_pos hc]
      split
      · simp
      · simp
    · rw [if_neg hc]; simp

/-- `stripWsBeforeComma` keeps a non-whitespace head in place. -/
theorem stripWsBeforeComma_cons_of_not_ws {c : Char} (rest : List Char)
    (h : ¬c.isWhitespace) :
    stripWsBeforeComma (c :: rest) = c :: stripWsBeforeComma rest := by
  simp only [stripWsBeforeComma]
  rw [if_neg h]

/-- `stripWsBeforeComma` output has no whitespace before a comma. -/
theorem noWsBeforeComma_stripWsBeforeComma (l : List Char) :
    noWsBeforeComma (stripWsBeforeComma l) := by
  induction l with
  | nil => rfl
  | cons c rest ih =>
    simp only [stripWsBeforeComma]
    by_cases hc : c.isWhitespace
    · rw [if_pos hc]
      split
      · next tl heq =>
        rw [heq] at ih
        exact ih
      · next x hne =>
        cases hx : stripWsBeforeComma rest with
        | nil => rfl
        | cons d tl =>
          rw [hx] at ih hne
          unfold noWsBeforeComma
          refine Bool.and_eq_true_iff.mpr ⟨?_, ih⟩
          have hd : d ≠ ',' := by
            intro hdc
            exact hne tl (by rw [hdc])
          simp [hd]
    · rw [if_neg hc]
      cases hacc : stripWsBeforeComma rest with
      | nil => rfl
      | cons d tl =>
        rw [hacc] at ih
        unfold noWsBeforeComma
        refine Bool.and_eq_true_iff.mpr ⟨?_, ih⟩
        simp [hc]

/-- `stripWsBeforeComma` keeps the no-double-whitespace invariant. -/
theorem noDoubleWs_stripWsBeforeComma {l : List Char} (h : noDoubleWs l) :
    noDoubleWs (stripWsBeforeComma l) := by
  induction l with
  | nil => rfl
  | cons c rest ih =>
    have ihr := ih (noDoubleWs_tail h)
    simp only [stripWsBeforeComma]
    by_cases hc : c.isWhitespace
    · rw [if_pos hc]
      split
      · next tl heq =>
        rw [heq] at ihr
        exact ihr
      · next x hne =>
        cases hx : stripWsBeforeComma rest with
        | nil => rfl
        | cons d tl =>
          rw [hx] at ihr
          cases rest with
          | nil => exact absurd hx (by simp [stripWsBeforeComma])
          | cons e tl2 =>
            have hwe : ¬e.isWhitespace := by
              unfold noDoubleWs at h
              have h1 := (Bool.and_eq_true_iff.mp h).1
              rw [hc] at h1
              simp only [Bool.true_and, Bool.not_eq_true'] at h1
              simp [h1]
            have hse := stripWsBeforeComma_cons_of_not_ws tl2 hwe
            rw [hse] at hx
            have hde : d = e := by
              injection hx with h1 h2
              exact h1.symm
            unfold noDoubleWs
            refine Bool.and_eq_true_iff.mpr ⟨?_, ihr⟩
            rw [hde]
            simp [hwe]
    · rw [if_neg hc]
      cases hx : stripWsBeforeComma rest with
      | nil => rfl
      | cons d tl =>
        rw [hx] at ihr
        unfold noDoubleWs
        refine Bool.and_eq_true_iff.mpr ⟨?_, ihr⟩
        simp [hc]

/-- `stripWsBeforeComma` keeps the no-leading-whitespace invariant. -/
theorem noLeadWs_stripWsBeforeComma {l : List Char} (h : noLeadWs l) :
    noLeadWs (stripWsBeforeComma l) := by
  cases l with
  | nil => rfl
  | cons c rest =>
    unfold noLeadWs at h
    simp only [List.head?_cons, Bool.not_eq_true'] at h
    rw [stripWsBeforeComma_cons_of_not_ws rest (by simp [h])]
    unfold noLeadWs
    simp [h]

/-- `stripWsBeforeComma` keeps the no-trailing-whitespace invariant. -/
theorem noTrailWs_stripWsBeforeComma {l : List Char} (h : noTrailWs l) :
    noTrailWs (stripWsBeforeComma l) := by
  induction l with
  | nil => rfl
  | cons c rest ih =>
    cases hrest : rest with
    | nil =>
      subst hrest
      simp only [stripWsBeforeComma]
      by_cases hc : c.isWhitespace
      · rw [if_pos hc]
        exact h
      · rw [if_neg hc]
        exact h
    | cons d0 tl0 =>
      have hrne : rest ≠ [] := by rw [hrest]; simp
      rw [← hrest] at *
      have htrest : noTrailWs rest := by rw [← noTrailWs_cons c rest hrne]; exact h
      have ihr := ih htrest
      have hSne : stripWsBeforeComma rest ≠ [] := stripWsBeforeComma_ne_nil hrne
      simp only [stripWsBeforeComma]
      by_cases hc : c.isWhitespace
      · rw [if_pos hc]
        split
        · next tl heq =>
          rw [heq] at ihr
          exact ihr
        · next x hne =>
          rw [noTrailWs_cons c _ hSne]
          exact ihr
      · rw [if_neg hc]
        rw [noTrailWs_cons c _ hSne]
        exact ihr

/-- A nonempty list with no trailing whitespace: its reversal starts with
the non-whitespace last character, which `dropWhile` keeps. -/
theorem last_rev_of_noTrailWs {l : List Char} (hlne : l ≠ [])
    (h : noTrailWs l) :
    ∃ r0 rs, l.reverse = r0 :: rs ∧ ¬r0.isWhitespace ∧ l.getLast? = some r0
      ∧ l.reverse.dropWhile Char.isWhitespace = r0 :: rs := by
  cases hrev : l.reverse with
  | nil =>
    have hnil : l = [] := by
      have h2 := congrArg List.reverse hrev
      simpa using h2
    exact absurd hnil hlne
  | cons a b =>
    have hlast : l.getLast? = some a := by rw [← List.head?_reverse, hrev]; rfl
    have hnws : ¬a.isWhitespace := by
      unfold noTrailWs at h
      rw [hlast] at h
      simpa using h
    refine ⟨a, b, rfl, hnws, hlast, ?_⟩
    rw [List.dropWhile_cons, if_neg (by simpa using hnws)]

/-- The head invariant survives a right factor. -/
theorem noLeadWs_append_left {xs ys : List Char} (h : noLeadWs (xs ++ ys)) :
    noLeadWs xs := by
  cases xs with
  | nil => rfl
  | cons c tl =>
    unfold noLeadWs at h ⊢
    simpa using h

/-- The no-double-whitespace invariant survives a right factor. -/
theorem noDoubleWs_append_left {xs ys : List Char}
    (h : noDoubleWs (xs ++ ys)) : noDoubleWs xs := by
  induction xs with
  | nil => rfl
  | cons c tl ih =>
    cases tl with
    | nil => rfl
    | cons d tl2 =>
      simp only [List.cons_append] at h
      unfold noDoubleWs at h ⊢
      have h1 := (Bool.and_eq_true_iff.mp h).1
      have h2 := (Bool.and_eq_true_iff.mp h).2
      refine Bool.and_eq_true_iff.mpr ⟨h1, ?_⟩
      exact ih (by simp only [List.cons_append]; exact h2)

/-- The no-whitespace-before-comma invariant survives a right factor. -/
theorem noWsBeforeComma_append_left {xs ys : List Char}
    (h : noWsBeforeComma (xs ++ ys)) : noWsBeforeComma xs := by
  induction xs with
  | nil => rfl
  | cons c tl ih =>
    cases tl with
    | nil => rfl
    | cons d tl2 =>
      simp only [List.cons_append] at h
      unfold noWsBeforeComma at h ⊢
      have h1 := (Bool.and_eq_true_iff.mp h).1
      have h2 := (Bool.and_eq_true_iff.mp h).2
      refine Bool.and_eq_true_iff.mpr ⟨h1, ?_⟩
      exact ih (by simp only [List.cons_append]; exact h2)

/-- A list with no whitespace before a comma does not end in whitespace
once a comma is appended and removed again. -/
theorem noTrailWs_of_append_comma {xs : List Char}
    (h : noWsBeforeComma (xs ++ [','])) : noTrailWs xs := by
  induction xs with
  | nil => rfl
  | cons c tl ih =>
    cases tl with
    | nil =>
      simp only [List.cons_append, List.nil_append] at h
      unfold noWsBeforeComma at h
      have h1 := (Bool.and_eq_true_iff.mp h).1
      simp only [Bool.not_eq_true'] at h1
      unfold noTrailWs
      simp only [List.getLast?_singleton, Bool.not_eq_true']
      simpa using h1
    | cons d tl2 =>
      simp only [List.cons_append] at h
      unfold noWsBeforeComma at h
      have h2 := (Bool.and_eq_true_iff.mp h).2
      rw [noTrailWs_cons c (d :: tl2) (by simp)]
      exact ih (by simp only [List.cons_append]; exact h2)

/-- Stage 6 either keeps the list or removes exactly one final comma
(there is no whitespace to drop when the input has no trailing
whitespace). -/
theorem stripTrailingComma_structure (l : List Char) (h : noTrailWs l) :
    stripTrailingComma l = l ∨ l = stripTrailingComma l ++ [','] := by
  by_cases hlne : l = []
  · subst hlne; left; rfl
  · obtain ⟨r0, rs, hr, hnws, hlast, hdw⟩ := last_rev_of_noTrailWs hlne h
    by_cases hc : r0 = ','
    · right
      subst hc
      have hst : stripTrailingComma l = rs.reverse := by
        unfold stripTrailingComma
        rw [hdw]
        split
        · next tl heq =>
          injection heq with ha hb
          rw [hb]
        · next x hne => exact absurd rfl (hne rs)
      rw [hst]
      conv_lhs => rw [← List.reverse_reverse l, hr, List.reverse_cons]
    · left
      unfold stripTrailingComma
      rw [hdw]
      split
      · next tl heq =>
        injection heq with ha hb
        exact absurd ha hc
      · rfl

/-- Stage 1 is the identity on lists that do not start with a comma. -/
theorem dropLeadingCommaWs_id {l : List Char} (h : l.head? ≠ some ',') :
    dropLeadingCommaWs l = l := by
  cases l with
  | nil => rfl
  | cons c rest =>
    unfold dropLeadingCommaWs
    split
    · next tl heq =>
      injection heq with ha hb
      rw [ha] at h
      exact absurd rfl h
    · rfl

/-- Stage 2 is the identity on lists with no trailing whitespace that do
not end with a comma. -/
theorem stripTrailingCommaWs_id {l : List Char} (h1 : noTrailWs l)
    (h2 : l.getLast? ≠ some ',') : stripTrailingCommaWs l = l := by
  by_cases hlne : l = []
  · subst hlne; rfl
  · obtain ⟨r0, rs, hr, hnws, hlast, hdw⟩ := last_rev_of_noTrailWs hlne h1
    unfold stripTrailingCommaWs
    rw [hdw]
    split
    · next tl heq =>
      injection heq with ha hb
      rw [hlast, ha] at h2
      exact absurd rfl h2
    · rfl

/-- Stage 3 is the identity on lists with no surrounding whitespace. -/
theorem stripEndsWs_id {l : List Char} (h1 : noLeadWs l) (h2 : noTrailWs l) :
    stripEndsWs l = l := by
  unfold stripEndsWs
  have hd1 : l.dropWhile Char.isWhitespace = l := by
    cases l with
    | nil => rfl
    | cons c rest =>
      unfold noLeadWs at h1
      simp only [List.head?_cons, Bool.not_eq_true'] at h1
      rw [List.dropWhile_cons, if_neg (by simp [h1])]
  rw [hd1]
  by_cases hlne : l = []
  · subst hlne; rfl
  · obtain ⟨r0, rs, hr, hnws, hlast, hdw⟩ := last_rev_of_noTrailWs hlne h2
    rw [hdw, ← hr, List.reverse_reverse]

/-- Stage 4 is the identity on lists with no double whitespace. -/
theorem collapseWs_id {l : List Char} (h : noDoubleWs l) : collapseWs l = l := by
  induction l with
  | nil => rfl
  | cons c rest ih =>
    have ihr := ih (noDoubleWs_tail h)
    simp only [collapseWs]
    by_cases hc : c.isWhitespace
    · rw [if_pos hc]
      cases hrest : rest with
      | nil => subst hrest; rfl
      | cons e tl2 =>
        subst hrest
        have hwe : ¬e.isWhitespace := by
          unfold noDoubleWs at h
          have hp := (Bool.and_eq_true_iff.mp h).1
          rw [hc] at hp
          simp only [Bool.true_and, Bool.not_eq_true'] at hp
          simp [hp]
        rw [ihr]
        show (if e.isWhitespace = true then ' ' :: tl2 else c :: e :: tl2)
          = c :: e :: tl2
        rw [if_neg hwe]
    · rw [if_neg hc, ihr]

/-- Stage 5 is the identity on lists with no whitespace before a comma. -/
theorem stripWsBeforeComma_id {l : List Char} (h : noWsBeforeComma l) :
    stripWsBeforeComma l = l := by
  induction l with
  | nil => rfl
  | cons c rest ih =>
    have ihr := ih (noWsBeforeComma_tail h)
    simp only [stripWsBeforeComma]
    by_cases hc : c.isWhitespace
    · rw [if_pos hc]
      cases hrest : rest with
      | nil => subst hrest; rfl
      | cons e tl2 =>
        subst hrest
        have hce : e ≠ ',' := by
          unfold noWsBeforeComma at h
          have hp := (Bool.and_eq_true_iff.mp h).1
          rw [hc] at hp
          simp only [Bool.true_and, Bool.not_eq_true'] at hp
          simpa using hp
        rw [ihr]
        split
        · next tl heq =>
          injection heq with ha hb
          exact absurd ha hce
        · rfl
    · rw [if_neg hc, ihr]

/-- Stage 6 is the identity on lists with no trailing whitespace that do
not end with a comma. -/
theorem stripTrailingComma_id {l : List Char} (h1 : noTrailWs l)
    (h2 : l.getLast? ≠ some ',') : stripTrailingComma l = l := by
  by_cases hlne : l = []
  · subst hlne; rfl
  · obtain ⟨r0, rs, hr, hnws, hlast, hdw⟩ := last_rev_of_noTrailWs hlne h1
    unfold stripTrailingComma
    rw [hdw]
    split
    · next tl heq =>
      injection heq with ha hb
      rw [hlast, ha] at h2
      exact absurd rfl h2
    · rfl

/-- Every `normChars` output has no surrounding whitespace, no double
whitespace, and no whitespace before a comma. -/
theorem normChars_invariants (l : List Char) :
    noLeadWs (normChars l) ∧ noTrailWs (normChars l)
      ∧ noDoubleWs (normChars l) ∧ noWsBeforeComma (normChars l) := by
  unfold normChars
  obtain ⟨hc1, hc2⟩ :=
    stripEndsWs_invariants (stripTrailingCommaWs (dropLeadingCommaWs l))
  have hd1 := noLeadWs_collapseWs hc1
  have hd2 := noTrailWs_collapseWs hc2
  have hd3 := noDoubleWs_collapseWs
    (stripEndsWs (stripTrailingCommaWs (dropLeadingCommaWs l)))
  have he1 := noLeadWs_stripWsBeforeComma hd1
  have he2 := noTrailWs_stripWsBeforeComma hd2
  have he3 := noDoubleWs_stripWsBeforeComma hd3
  have he4 := noWsBeforeComma_stripWsBeforeComma
    (collapseWs (stripEndsWs (stripTrailingCommaWs (dropLeadingCommaWs l))))
  rcases stripTrailingComma_structure _ he2 with hid | hsplit
  · rw [hid]
    exact ⟨he1, he2, he3, he4⟩
  · rw [hsplit] at he1 he3 he4
    exact ⟨noLeadWs_append_left he1,
      noTrailWs_of_append_comma he4,
      noDoubleWs_append_left he3,
      noWsBeforeComma_append_left he4⟩

/-- A `normChars` output that does not start or end with a comma is a
fixed point of `normChars`. -/
theorem normChars_fixed (l : List Char)
    (h1 : (normChars l).head? ≠ some ',')
    (h2 : (normChars l).getLast? ≠ some ',') :
    normChars (normChars l) = normChars l := by
  obtain ⟨i1, i2, i3, i4⟩ := normChars_invariants l
  set m := normChars l with hm
  unfold normChars
  rw [dropLeadingCommaWs_id h1, stripTrailingCommaWs_id i2 h2,
    stripEndsWs_id i1 i2, collapseWs_id i3, stripWsBeforeComma_id i4,
    stripTrailingComma_id i2 h2]

/-- C9 is false as stated: the pass strips only one leading (and one
trailing) comma per application, so it is not idempotent on
already-normalized strings.  `",,a"` is already normalized (it is the
output of the pass on `",,,a"`), yet applying the pass to it twice gives
`"a"` while applying it once gives `",a"`. -/
theorem c9_not_idempotent_counterexample :
    normalizeAddress ",,,a" = ",,a"
  ∧ normalizeAddress (normalizeAddress ",,,a") = ",a"
  ∧ normalizeAddress (normalizeAddress (normalizeAddress ",,,a"))
      ≠ normalizeAddress (normalizeAddress ",,,a") := by
  decide

/-- C9 (amended): the address-normalization pass is idempotent provided
the once-normalized string does not start and does not end with a comma:
applying the pass twice then yields the same string as applying it once.
(In general each application strips exactly one leading and one trailing
comma, so outputs that still carry a leading or trailing comma shrink
further under a second application.) -/
theorem c9_idempotent_amended (s : String)
    (h1 : (normalizeAddress s).data.head? ≠ some ',')
    (h2 : (normalizeAddress s).data.getLast? ≠ some ',') :
    normalizeAddress (normalizeAddress s) = normalizeAddress s := by
  unfold normalizeAddress
  exact congrArg String.mk (normChars_fixed s.data h1 h2)

/-- Witness for C9: the scenario-A address normalizes to itself. -/
theorem c9_idempotent_amended_witness :
    ((normalizeAddress "12 Elm St, Springfield IL 62704").data.head?
        ≠ some ',')
  ∧ ((normalizeAddress "12 Elm St, Springfield IL 62704").data.getLast?
        ≠ some ',')
  ∧ normalizeAddress (normalizeAddress "12 Elm St, Springfield IL 62704")
      = normalizeAddress "12 Elm St, Springfield IL 62704" :=
  ⟨by decide, by decide,
   c9_idempotent_amended "12 Elm St, Springfield IL 62704" (by decide)
     (by decide)⟩
